import Mathlib

/-!
Shallow embedding of the Gmail MCP server's MIME-part decoding core
(`src/mcp_gmail_server/utils.py` and `src/mcp_gmail_server/models.py`),
together with the Python standard-library routines those functions call
(`base64.urlsafe_b64decode`, `bytes.decode("utf-8", errors="ignore")`,
`email.header.decode_header`).  Python strings are Lean `String`s, byte
strings are `List Nat` (each entry < 256), `None` is `Option.none`, and a
Python function that can raise inside a `try` block is embedded as an
`Option`-returning function (`none` = exception).
-/

namespace GmailMcp

/-! ### Python string primitives -/

/-- ASCII lowercasing, modelling Python `str.lower` on the ASCII range
(the only range exercised by header names and regex keys here). -/
def pyLowerChar (c : Char) : Char :=
  if 'A' ≤ c ∧ c ≤ 'Z' then Char.ofNat (c.toNat + 32) else c

/-- Python `str.lower` (ASCII model). -/
def pyLower (s : String) : String := String.mk (s.data.map pyLowerChar)

/-- Python's notion of whitespace for `str.strip` / `str.isspace`:
ASCII whitespace plus the Unicode space/separator code points. -/
def pyIsSpaceChar (c : Char) : Bool :=
  c == ' ' || c == '\t' || c == '\n' || c == '\r' ||
  c.toNat == 0x0b || c.toNat == 0x0c ||
  (0x1c ≤ c.toNat && c.toNat ≤ 0x1f) || c.toNat == 0x85 || c.toNat == 0xa0 ||
  c.toNat == 0x1680 || (0x2000 ≤ c.toNat && c.toNat ≤ 0x200a) ||
  c.toNat == 0x2028 || c.toNat == 0x2029 || c.toNat == 0x202f ||
  c.toNat == 0x205f || c.toNat == 0x3000

/-- Python `str.lstrip()` with no argument. -/
def pyLstrip (s : String) : String := String.mk (s.data.dropWhile pyIsSpaceChar)

/-- Python `str.strip()` with no argument. -/
def pyStrip (s : String) : String :=
  String.mk (((s.data.dropWhile pyIsSpaceChar).reverse.dropWhile pyIsSpaceChar).reverse)

/-- Python `str.isspace()`: non-empty and all-whitespace. -/
def pyIsSpace (s : String) : Bool := !s.data.isEmpty && s.data.all pyIsSpaceChar

/-- Python truthiness of an `Optional[str]`: `None` and `""` are falsy. -/
def truthy : Option String → Bool
  | none => false
  | some s => !(s == "")

/-- Python truthiness of an `Optional[list]`: `None` and `[]` are falsy. -/
def truthyList {α : Type} : Option (List α) → Bool
  | none => false
  | some l => !l.isEmpty

/-! ### CPython `binascii.a2b_base64` (default, non-strict mode)

State machine over input bytes.  `quadPos` is the position inside the
current base64 quad, `leftchar` holds the pending bits, `pads` counts
padding characters seen at `quadPos ≥ 2`.  Non-alphabet bytes are
discarded; a padding character that completes a quad ends decoding
successfully, discarding the rest of the input; input ending with an
incomplete quad is an error (`binascii.Error`, embedded as `none`). -/

/-- Value of a byte in the standard base64 alphabet (`A-Z a-z 0-9 + /`). -/
def b64DigitVal (b : Nat) : Option Nat :=
  if 65 ≤ b ∧ b ≤ 90 then some (b - 65)
  else if 97 ≤ b ∧ b ≤ 122 then some (b - 97 + 26)
  else if 48 ≤ b ∧ b ≤ 57 then some (b - 48 + 52)
  else if b = 43 then some 62
  else if b = 47 then some 63
  else none

/-- Core loop of `binascii.a2b_base64` (non-strict). -/
def a2bBase64Go : List Nat → Nat → Nat → Nat → List Nat → Option (List Nat)
  | [], quadPos, _, _, out => if quadPos = 0 then some out.reverse else none
  | b :: rest, quadPos, leftchar, pads, out =>
    if b = 61 then
      if 2 ≤ quadPos ∧ 4 ≤ quadPos + pads + 1 then some out.reverse
      else if 2 ≤ quadPos then a2bBase64Go rest quadPos leftchar (pads + 1) out
      else a2bBase64Go rest quadPos leftchar pads out
    else
      match b64DigitVal b with
      | none => a2bBase64Go rest quadPos leftchar pads out
      | some d =>
        match quadPos with
        | 0 => a2bBase64Go rest 1 d 0 out
        | 1 => a2bBase64Go rest 2 (d % 16) 0 ((leftchar * 4 + d / 16) :: out)
        | 2 => a2bBase64Go rest 3 ((leftchar * 64 + d) % 4) 0 (((leftchar * 64 + d) / 4) :: out)
        | _ => a2bBase64Go rest 0 0 0 (((leftchar * 64 + d) % 256) :: out)

/-- CPython `binascii.a2b_base64(bs)` (non-strict mode); `none` models
a raised `binascii.Error`. -/
def a2bBase64 (bs : List Nat) : Option (List Nat) := a2bBase64Go bs 0 0 0 []

/-- The byte translation applied by `base64.urlsafe_b64decode`
(`-` to `+`, `_` to `/`). -/
def urlsafeTranslate (b : Nat) : Nat :=
  if b = 45 then 43 else if b = 95 then 47 else b

/-- CPython `base64.urlsafe_b64decode` on a `str` argument: ASCII-encode
(failure on any non-ASCII character), translate the urlsafe alphabet,
then `a2b_base64`.  `none` models a raised exception. -/
def urlsafe_b64decode (s : String) : Option (List Nat) :=
  let bs := s.data.map Char.toNat
  if bs.all (· < 128) then a2bBase64 (bs.map urlsafeTranslate) else none

/-! ### CPython `bytes.decode("utf-8", errors="ignore")`

Standard UTF-8 with strict range checks (no overlong forms, no
surrogates, max U+10FFFF).  With `errors="ignore"` every byte belonging
to an invalid or truncated sequence is dropped; dropping one byte at a
time at each failure is extensionally the same as dropping W3C maximal
subparts, because no continuation byte can begin a valid sequence. -/

/-- Is `b` a UTF-8 continuation byte? -/
def utf8Cont (b : Nat) : Bool := 128 ≤ b && b ≤ 191

/-- Allowed second byte after a three-byte lead `b`. -/
def utf8Second3 (b c1 : Nat) : Bool :=
  if b = 224 then 160 ≤ c1 && c1 ≤ 191
  else if b = 237 then 128 ≤ c1 && c1 ≤ 159
  else utf8Cont c1

/-- Allowed second byte after a four-byte lead `b`. -/
def utf8Second4 (b c1 : Nat) : Bool :=
  if b = 240 then 144 ≤ c1 && c1 ≤ 191
  else if b = 244 then 128 ≤ c1 && c1 ≤ 143
  else utf8Cont c1

/-- Parse one UTF-8 scalar at the head of the byte list, returning the
character and the number of bytes consumed, or `none` if the head does
not begin a complete valid sequence. -/
def utf8ParseOne : List Nat → Option (Char × Nat)
  | [] => none
  | b :: rest =>
    if b < 128 then some (Char.ofNat b, 1)
    else if 194 ≤ b ∧ b ≤ 223 then
      match rest with
      | c1 :: _ =>
        if utf8Cont c1 then some (Char.ofNat ((b - 192) * 64 + (c1 - 128)), 2) else none
      | _ => none
    else if 224 ≤ b ∧ b ≤ 239 then
      match rest with
      | c1 :: c2 :: _ =>
        if utf8Second3 b c1 && utf8Cont c2 then
          some (Char.ofNat (((b - 224) * 64 + (c1 - 128)) * 64 + (c2 - 128)), 3)
        else none
      | _ => none
    else if 240 ≤ b ∧ b ≤ 244 then
      match rest with
      | c1 :: c2 :: c3 :: _ =>
        if utf8Second4 b c1 && utf8Cont c2 && utf8Cont c3 then
          some (Char.ofNat ((((b - 240) * 64 + (c1 - 128)) * 64 + (c2 - 128)) * 64 + (c3 - 128)), 4)
        else none
      | _ => none
    else none

/-- Fuel-indexed decoding loop (each step consumes at least one byte,
so `fuel = length` suffices). -/
def utf8DecodeIgnoreGo : Nat → List Nat → List Char
  | 0, _ => []
  | _, [] => []
  | fuel + 1, b :: rest =>
    match utf8ParseOne (b :: rest) with
    | some (c, n) => c :: utf8DecodeIgnoreGo fuel (List.drop (n - 1) rest)
    | none => utf8DecodeIgnoreGo fuel rest

/-- CPython `bytes.decode("utf-8", errors="ignore")`. -/
def utf8DecodeIgnore (bs : List Nat) : String :=
  String.mk (utf8DecodeIgnoreGo bs.length bs)

/-! ### `decode_base64_text` (src/mcp_gmail_server/utils.py, lines 8-12) -/

/-- Embeds `decode_base64_text`: URL-safe base64 decode then lossy UTF-8
decode inside a `try`; any exception yields `""`.  (The UTF-8 step with
`errors="ignore"` cannot raise, so the only failure is the base64 step.) -/
def decode_base64_text (data : String) : String :=
  match urlsafe_b64decode data with
  | some bs => utf8DecodeIgnore bs
  | none => ""

example : decode_base64_text "aGVsbG8=" = "hello" := by decide
example : decode_base64_text "" = "" := by decide
example : decode_base64_text "invalid_base64!!!" = "" := by decide
example : decode_base64_text "PGI-aGk8L2I-" = "<b>hi</b>" := by decide

/-! ### CPython `email.header.decode_header`

The regex `ecre` matches `=?charset?e?text?=` where `charset` has no `?`,
`e` is one of `qQbB`, and `text` is the shortest run (without a newline,
since `.` does not match `\n`) ending before the next `?=`. -/

/-- One RFC 2047 encoded-word as captured by `ecre`. -/
structure EncWord where
  charset : String
  encoding : Char
  encoded : String

/-- Split a char list at the first occurrence of `t`, which is dropped. -/
def splitAtChar (t : Char) : List Char → Option (List Char × List Char)
  | [] => none
  | c :: cs =>
    if c = t then some ([], cs)
    else match splitAtChar t cs with
      | some (pre, post) => some (c :: pre, post)
      | none => none

/-- Split a char list at the first occurrence of the two-char run `?=`. -/
def splitAtQE : List Char → Option (List Char × List Char)
  | '?' :: '=' :: cs => some ([], cs)
  | c :: cs =>
    match splitAtQE cs with
    | some (pre, post) => some (c :: pre, post)
    | none => none
  | [] => none

/-- Try to match `ecre` at the very start of the char list; on success
return the encoded-word and the characters after the match. -/
def matchEcreAt : List Char → Option (EncWord × List Char)
  | '=' :: '?' :: rest =>
    match splitAtChar '?' rest with
    | some (cset, e :: '?' :: rest2) =>
      if e == 'q' || e == 'Q' || e == 'b' || e == 'B' then
        match splitAtQE rest2 with
        | some (enc, rest3) =>
          if enc.contains '\n' then none
          else some (⟨String.mk cset, e, String.mk enc⟩, rest3)
        | none => none
      else none
    | _ => none
  | _ => none

/-- Leftmost `ecre` match: text before the match, the word, the rest. -/
def ecreScanGo : Nat → List Char → Option (List Char × EncWord × List Char)
  | 0, _ => none
  | _, [] => none
  | fuel + 1, c :: cs =>
    match matchEcreAt (c :: cs) with
    | some (w, rest) => some ([], w, rest)
    | none =>
      match ecreScanGo fuel cs with
      | some (pre, w, rest) => some (c :: pre, w, rest)
      | none => none

/-- Does `ecre` match anywhere in `s` (Python `ecre.search`)? -/
def ecreSearch (s : String) : Bool :=
  (ecreScanGo s.data.length s.data).isSome

/-- Python `ecre.split` on one line, as an interleaved list of plain
text segments and encoded-words (trailing text always present, possibly
empty, as in `re.split`). -/
def ecreSplitGo : Nat → List Char → List (String ⊕ EncWord)
  | 0, cs => [Sum.inl (String.mk cs)]
  | fuel + 1, cs =>
    match ecreScanGo cs.length cs with
    | some (pre, w, rest) => Sum.inl (String.mk pre) :: Sum.inr w :: ecreSplitGo fuel rest
    | none => [Sum.inl (String.mk cs)]

/-- Python `str.splitlines` line-boundary characters. -/
def isLineBoundary (c : Char) : Bool :=
  c == '\n' || c == '\r' || c.toNat == 0x0b || c.toNat == 0x0c ||
  c.toNat == 0x1c || c.toNat == 0x1d || c.toNat == 0x1e || c.toNat == 0x85 ||
  c.toNat == 0x2028 || c.toNat == 0x2029

/-- Worker for `pySplitlines`; `acc` is the current line, reversed. -/
def pySplitlinesGo : List Char → List Char → List String
  | [], acc => if acc.isEmpty then [] else [String.mk acc.reverse]
  | '\r' :: '\n' :: cs, acc => String.mk acc.reverse :: pySplitlinesGo cs []
  | c :: cs, acc =>
    if isLineBoundary c then String.mk acc.reverse :: pySplitlinesGo cs []
    else pySplitlinesGo cs (c :: acc)

/-- Python `str.splitlines()`. -/
def pySplitlines (s : String) : List String := pySplitlinesGo s.data []

/-- One entry of decode_header's `words` list: the triple
`(text, encoding, charset)` where `encoding`/`charset` are `None` for
unencoded text and the lowercased captured strings otherwise. -/
structure HWord where
  text : String
  encoding : Option String
  charset : Option String

/-- Is this words-entry an encoded word (`w[1]` truthy in the source)? -/
def isEncW (w : HWord) : Bool := w.encoding.isSome

/-- Build the `words` entries contributed by one line's split; `first`
is true only for the line's leading text segment, which is `lstrip`ped. -/
def wordsOfParts : Bool → List (String ⊕ EncWord) → List HWord
  | _, [] => []
  | first, Sum.inl t :: rest =>
    let t' := if first then pyLstrip t else t
    (if t' == "" then [] else [⟨t', none, none⟩]) ++ wordsOfParts false rest
  | _, Sum.inr w :: rest =>
    ⟨w.encoded, some (pyLower (String.mk [w.encoding])), some (pyLower w.charset)⟩ ::
      wordsOfParts false rest

/-- Words of the whole header: per-line splits, concatenated. -/
def headerWords (s : String) : List HWord :=
  List.flatten ((pySplitlines s).map fun line =>
    wordsOfParts true (ecreSplitGo (line.data.length + 1) line.data))

/-- The droplist step: delete `words[n-1]` whenever `n ≥ 2`, `words[n]`
and `words[n-2]` are encoded and `words[n-1]`'s text is all-whitespace
(indices taken in the original list, as in the source). -/
def dropSpaceWords (ws : List HWord) : List HWord :=
  let dflt : HWord := ⟨"", none, none⟩
  let q : Nat → Bool := fun n =>
    decide (2 ≤ n) && decide (n < ws.length) && isEncW (ws.getD n dflt) &&
      isEncW (ws.getD (n - 2) dflt) && pyIsSpace (ws.getD (n - 1) dflt).text
  ws.enum.filterMap fun p => if q (p.1 + 1) then none else some p.2

/-- Hex digit test for `email.quoprimime.header_decode`'s regex
(`[a-fA-F0-9]`, ASCII). -/
def isHexDigitPy (c : Char) : Bool :=
  ('0' ≤ c && c ≤ '9') || ('a' ≤ c && c ≤ 'f') || ('A' ≤ c && c ≤ 'F')

/-- Value of a hex digit. -/
def hexVal (c : Char) : Nat :=
  if '0' ≤ c ∧ c ≤ '9' then c.toNat - 48
  else if 'a' ≤ c ∧ c ≤ 'f' then c.toNat - 87
  else c.toNat - 55

/-- Substitution loop of `email.quoprimime.header_decode`: each `=XX`
(two hex digits) becomes the character with that code.  Fuel-indexed
(each step consumes at least one character). -/
def headerQDecodeGo : Nat → List Char → List Char
  | 0, cs => cs
  | fuel + 1, l =>
    match l with
    | '=' :: a :: b :: rest =>
      if isHexDigitPy a && isHexDigitPy b then
        Char.ofNat (hexVal a * 16 + hexVal b) :: headerQDecodeGo fuel rest
      else '=' :: headerQDecodeGo fuel (a :: b :: rest)
    | c :: rest => c :: headerQDecodeGo fuel rest
    | [] => []

/-- CPython `email.quoprimime.header_decode`: `_` becomes a space, then
`=XX` sequences are substituted. -/
def headerQDecode (s : String) : String :=
  String.mk (headerQDecodeGo s.data.length (s.data.map fun c => if c = '_' then ' ' else c))

/-- CPython `str.encode("raw-unicode-escape")` for one character:
code points below 256 map to themselves, others to a `\uXXXX` or
`\UXXXXXXXX` ASCII escape (lowercase hex). -/
def rawUnicodeEscapeChar (c : Char) : List Nat :=
  if c.toNat < 256 then [c.toNat]
  else
    let w := if c.toNat < 65536 then 4 else 8
    let mark := if c.toNat < 65536 then 'u' else 'U'
    let h := Nat.toDigits 16 c.toNat
    ('\\' :: mark :: (List.replicate (w - h.length) '0' ++ h)).map Char.toNat

/-- CPython `str.encode("raw-unicode-escape")`. -/
def rawUnicodeEscape (s : String) : List Nat :=
  List.flatten (s.data.map rawUnicodeEscapeChar)

/-- CPython `email.base64mime.decode`: empty input gives `b""`, else
`a2b_base64` of the raw-unicode-escape encoding. -/
def base64mimeDecode (s : String) : Option (List Nat) :=
  if s == "" then some [] else a2bBase64 (rawUnicodeEscape s)

/-- Decode one words-entry (the second loop of `decode_header`):
unencoded text passes through, `q` words get header_decode, `b` words
get padding fix-up then base64; a base64 error (`none`) models the
raised `HeaderParseError`. -/
def decodeWord (w : HWord) : Option ((String ⊕ List Nat) × Option String) :=
  match w.encoding with
  | none => some (Sum.inl w.text, w.charset)
  | some e =>
    if e == "q" then some (Sum.inl (headerQDecode w.text), w.charset)
    else if e == "b" then
      let padded := w.text ++ String.mk (List.replicate ((4 - w.text.length % 4) % 4) '=')
      (base64mimeDecode padded).map fun bs => (Sum.inr bs, w.charset)
    else none

/-- The collapse loop of `decode_header`: adjacent words with the same
charset are merged, unencoded (`None`-charset) runs joined with `b" "`;
every word is converted to bytes via raw-unicode-escape first. -/
def collapseGo : List Nat → Option String → List ((String ⊕ List Nat) × Option String) →
    List (List Nat × Option String)
  | lastW, lastC, [] => [(lastW, lastC)]
  | lastW, lastC, (w, c) :: rest =>
    let wb := match w with | Sum.inl t => rawUnicodeEscape t | Sum.inr bs => bs
    if c = lastC then
      if lastC = none then collapseGo (lastW ++ 32 :: wb) lastC rest
      else collapseGo (lastW ++ wb) lastC rest
    else (lastW, lastC) :: collapseGo wb c rest

/-- CPython `email.header.decode_header` on a plain string: either the
fast path (no encoded word anywhere: one `str` part with no charset) or
the full words pipeline producing `bytes` parts.  `none` models a raised
exception (`HeaderParseError`, or the unreachable `AssertionError`). -/
def decode_header (s : String) : Option (List ((String ⊕ List Nat) × Option String)) :=
  if !ecreSearch s then some [(Sum.inl s, none)]
  else
    match (dropSpaceWords (headerWords s)).mapM decodeWord with
    | none => none
    | some [] => none
    | some (d :: ds) =>
      let d0 := match d.1 with | Sum.inl t => rawUnicodeEscape t | Sum.inr bs => bs
      some ((collapseGo d0 d.2 ds).map fun p => (Sum.inr p.1, p.2))

/-! ### Python codec registry (the subset relevant here)

`bytes.decode(name, errors="ignore")` looks the codec up after
lowercasing and normalising the name; an unknown name raises
`LookupError` regardless of the error handler.  We model the three
codecs reachable from header charsets in this repository's tests and
examples (`utf-8`, `ascii`, `latin-1`) with their standard aliases;
every other name is `LookupError` (`none`). -/

/-- The modelled codecs. -/
inductive PyCodec | utf8 | ascii | latin1
  deriving DecidableEq

/-- CPython `encodings.normalize_encoding` (ASCII model): keep
alphanumerics and `.`, collapse any run of other characters between
kept characters into one `_`. -/
def normalizeCodecGo : Bool → List Char → List Char
  | _, [] => []
  | punct, c :: cs =>
    if c.isAlphanum || c == '.' then
      (if punct then ['_', c] else [c]) ++ normalizeCodecGo false cs
    else normalizeCodecGo (true) cs

/-- Codec-name normalisation: lowercase (as the C-level lookup does),
then `normalize_encoding`; the source never emits a leading `_` because
`chars` is still empty there, modelled by stripping one leading `_`. -/
def normalizeCodec (s : String) : String :=
  match normalizeCodecGo false (pyLower s).data with
  | '_' :: cs => String.mk cs
  | cs => String.mk cs

/-- Codec lookup table (normalized names and aliases). -/
def codecLookup (name : String) : Option PyCodec :=
  let n := normalizeCodec name
  if ["utf_8", "utf8", "utf", "u8", "cp65001"].contains n then some PyCodec.utf8
  else if ["ascii", "us_ascii", "us", "646", "cp367", "ibm367", "csascii",
           "iso646_us", "iso_ir_6", "ansi_x3.4_1968", "ansi_x3.4_1986",
           "iso_646.irv_1991"].contains n then some PyCodec.ascii
  else if ["latin_1", "latin1", "latin", "l1", "iso_8859_1", "iso8859_1",
           "iso8859", "8859", "cp819", "ibm819", "csisolatin1",
           "iso_8859_1_1987", "iso_ir_100"].contains n then some PyCodec.latin1
  else none

/-- `bytes.decode(codec, errors="ignore")` for the modelled codecs. -/
def codecDecodeIgnore : PyCodec → List Nat → String
  | PyCodec.utf8, bs => utf8DecodeIgnore bs
  | PyCodec.ascii, bs => String.mk ((bs.filter (· < 128)).map Char.ofNat)
  | PyCodec.latin1, bs => String.mk (bs.map Char.ofNat)

/-! ### `decode_rfc2047_filename` (src/mcp_gmail_server/utils.py, lines 23-37) -/

/-- Embeds `decode_rfc2047_filename`: run `decode_header`, decode each
`bytes` part with its declared charset (`encoding or "utf-8"`, so `None`
and `""` both fall back to UTF-8) using lossy handling, keep `str`
parts as they are, and join; any exception — a `HeaderParseError` from
`decode_header` or a `LookupError` from an unsupported charset — is
caught and the original string returned.  `decodeSegment` is one
iteration of the caller's loop: a `str` part passes through, a `bytes`
part is decoded with `encoding or "utf-8"` (lossy); an unknown codec is
`none` (`LookupError`). -/
def decodeSegment (pc : (String ⊕ List Nat) × Option String) : Option String :=
  match pc.1 with
  | Sum.inl t => some t
  | Sum.inr bs =>
    let encName := match pc.2 with
      | none => "utf-8"
      | some c => if c == "" then "utf-8" else c
    (codecLookup encName).map fun codec => codecDecodeIgnore codec bs

/-- The caller's whole loop: decode the parts in order, short-circuiting
on the first failure (the raised `LookupError`). -/
def decodeSegments : List ((String ⊕ List Nat) × Option String) → Option (List String)
  | [] => some []
  | pc :: rest =>
    match decodeSegment pc, decodeSegments rest with
    | some s, some ss => some (s :: ss)
    | _, _ => none

/-- Embeds `decode_rfc2047_filename` proper: the loop over
`decode_header`'s parts is `decodeSegments`, the results are joined, and
any exception path returns the input. -/
def decode_rfc2047_filename (filename : String) : String :=
  match decode_header filename with
  | none => filename
  | some parts =>
    match decodeSegments parts with
    | none => filename
    | some segs => String.join segs

example : decode_rfc2047_filename "plain.pdf" = "plain.pdf" := by decide
example : decode_rfc2047_filename "=?utf-8?B?aGVsbG8=?=" = "hello" := by decide
example : decode_rfc2047_filename "=?bogus-charset?B?aGVsbG8=?=" =
    "=?bogus-charset?B?aGVsbG8=?=" := by decide
example : decode_rfc2047_filename "=?UTF-8?Q?h=C3=A9llo?=" = "héllo" := by decide
example : decode_rfc2047_filename "=?utf-8?B?a?=" = "=?utf-8?B?a?=" := by decide
example : decode_rfc2047_filename "pre =?utf-8?B?aGk=?= post" = "pre hi post" := by decide
example : decode_rfc2047_filename "=?utf-8?B?aGk=?= =?utf-8?B?aGk=?=" = "hihi" := by decide
example : decode_rfc2047_filename "=??B?aGk=?=" = "hi" := by decide

/-! ### The parameter regex of `extract_filename_from_headers`

Models `re.search(r'key[*]?=(?:"([^"]+)"|([^;]+))', value, re.IGNORECASE)`
for `key` ∈ `filename`, `name`: leftmost position where the key (ASCII
case-insensitive), an optional `*` and `=` are followed by either a
non-empty double-quoted string or a non-empty run of non-semicolon
characters; returns `group(1) or group(2)`. -/

/-- Case-insensitive literal prefix match, returning the rest. -/
def matchCI : List Char → List Char → Option (List Char)
  | [], cs => some cs
  | k :: ks, c :: cs => if pyLowerChar c = pyLowerChar k then matchCI ks cs else none
  | _ :: _, [] => none

/-- Match `[*]?=` and return the rest. -/
def matchStarEq : List Char → Option (List Char)
  | '*' :: '=' :: cs => some cs
  | '=' :: cs => some cs
  | _ => none

/-- The token alternative `([^;]+)`. -/
def matchToken (cs : List Char) : Option String :=
  let tok := cs.takeWhile (fun c => !(c == ';'))
  if tok.isEmpty then none else some (String.mk tok)

/-- The value alternatives `(?:"([^"]+)"|([^;]+))`, quoted form first. -/
def matchValue (cs : List Char) : Option String :=
  match cs with
  | '"' :: cs2 =>
    match splitAtChar '"' cs2 with
    | some (body, _) => if body.isEmpty then matchToken cs else some (String.mk body)
    | none => matchToken cs
  | _ => matchToken cs

/-- Scan for the leftmost match of the whole parameter pattern. -/
def searchParamGo (key : List Char) : Nat → List Char → Option String
  | 0, _ => none
  | fuel + 1, [] =>
    match fuel with | _ => none
  | fuel + 1, c :: cs =>
    match (matchCI key (c :: cs)).bind matchStarEq |>.bind matchValue with
    | some v => some v
    | none => searchParamGo key fuel cs

/-- Python `re.search(key + r'[*]?=(?:"([^"]+)"|([^;]+))', s, re.IGNORECASE)`,
returning `match.group(1) or match.group(2)`. -/
def searchParam (key : String) (s : String) : Option String :=
  searchParamGo key.data s.data.length s.data

example : searchParam "filename" "attachment; filename=\"document.pdf\"" =
    some "document.pdf" := by decide
example : searchParam "name" "application/pdf; name=\"other.pdf\"" =
    some "other.pdf" := by decide
example : searchParam "filename" "attachment; filename*=utf-8''x.pdf" =
    some "utf-8''x.pdf" := by decide
example : searchParam "filename" "attachment" = none := by decide
example : searchParam "filename" "attachment; FILENAME=doc.pdf; x=1" =
    some "doc.pdf" := by decide

/-! ### Data model (src/mcp_gmail_server/models.py) -/

/-- One entry of the `headers` array.  The source reads the entries with
`h.get("name", "")` / `h.get("value", "")`, so each key is optional. -/
structure Header where
  name : Option String
  value : Option String

/-- Python `h.get("name", "")`. -/
def hGetName (h : Header) : String := h.name.getD ""

/-- Python `h.get("value", "")`. -/
def hGetValue (h : Header) : String := h.value.getD ""

/-- Insert into the dict built by the comprehension on line 99 of
models.py: an existing key is overwritten, a new key appended. -/
def dictInsert (d : List (String × String)) (k v : String) : List (String × String) :=
  if d.any (fun p => p.1 == k) then d.map (fun p => if p.1 = k then (k, v) else p)
  else d ++ [(k, v)]

/-- The dict comprehension: lowercased header name to value, built left
to right (so the last occurrence of a duplicated name wins). -/
def headerDict (hs : List Header) : List (String × String) :=
  hs.foldl (fun d h => dictInsert d (pyLower (hGetName h)) (hGetValue h)) []

/-- Python `dict.get(k, "")`: value of the entry with key `k` (keys are
unique by construction), else `""`. -/
def dictGet : List (String × String) → String → String
  | [], _ => ""
  | p :: d, k => if p.1 = k then p.2 else dictGet d k

/-- Body of `MessagePayload.extract_filename_from_headers` after its
`if not self.headers` guard (models.py lines 99-127). -/
def extractFilenameFromHeaderList (hs : List Header) : Option String :=
  let d := headerDict hs
  let cd := dictGet d "content-disposition"
  let cdRes : Option String :=
    if cd == "" then none
    else match searchParam "filename" cd with
      | some fn => if fn == "" then none else some (decode_rfc2047_filename (pyStrip fn))
      | none => none
  match cdRes with
  | some r => some r
  | none =>
    let ct := dictGet d "content-type"
    if ct == "" then none
    else match searchParam "name" ct with
      | some fn => if fn == "" then none else some (decode_rfc2047_filename (pyStrip fn))
      | none => none

/-- `PayloadBody` (models.py lines 51-60). -/
structure PayloadBody where
  attachment_id : Option String
  data : Option String
  size : Int

/-- `Attachment` (models.py lines 34-40). -/
structure Attachment where
  attachment_id : String
  file_name : String
  mime_type : String
  size : Int
  deriving DecidableEq

/-- `MessagePayload` (models.py lines 63-76): the recursive part tree. -/
inductive MessagePayload where
  | mk (mime_type : String) (filename : Option String) (body : PayloadBody)
       (parts : Option (List MessagePayload)) (headers : Option (List Header))

/-- Field accessor. -/
def MessagePayload.mime_type : MessagePayload → String
  | .mk mt _ _ _ _ => mt

/-- Field accessor. -/
def MessagePayload.filename : MessagePayload → Option String
  | .mk _ fn _ _ _ => fn

/-- Field accessor. -/
def MessagePayload.body : MessagePayload → PayloadBody
  | .mk _ _ bd _ _ => bd

/-- Field accessor. -/
def MessagePayload.parts : MessagePayload → Option (List MessagePayload)
  | .mk _ _ _ pr _ => pr

/-- Field accessor. -/
def MessagePayload.headers : MessagePayload → Option (List Header)
  | .mk _ _ _ _ hs => hs

/-- `is_text_plain` (models.py line 78). -/
def MessagePayload.is_text_plain (p : MessagePayload) : Bool :=
  p.mime_type == "text/plain"

/-- `is_text_html` (models.py line 81). -/
def MessagePayload.is_text_html (p : MessagePayload) : Bool :=
  p.mime_type == "text/html"

/-- `decode_body_data` (models.py lines 84-87): decode `body.data` when
truthy, else `""`. -/
def MessagePayload.decode_body_data (p : MessagePayload) : String :=
  match p.body.data with
  | some d => if d == "" then "" else decode_base64_text d
  | none => ""

/-- `extract_filename_from_headers` (models.py lines 89-127): `None`
when the header list is falsy, else the two-step parameter search. -/
def MessagePayload.extract_filename_from_headers (p : MessagePayload) : Option String :=
  match p.headers with
  | none => none
  | some hs => if hs.isEmpty then none else extractFilenameFromHeaderList hs

/-- `create_attachment` (models.py lines 129-152): `None` unless
`body.attachment_id` is truthy; the filename is `self.filename`,
replaced by the header resolver when falsy and headers are truthy; a
falsy final filename yields `None`. -/
def MessagePayload.create_attachment (p : MessagePayload) : Option Attachment :=
  if !truthy p.body.attachment_id then none
  else
    let fn0 := p.filename
    let fn1 := if !truthy fn0 && truthyList p.headers
      then p.extract_filename_from_headers else fn0
    if !truthy fn1 then none
    else some ⟨p.body.attachment_id.getD "", fn1.getD "", p.mime_type, p.body.size⟩

mutual

/-- `extract_body_text` (models.py lines 154-194).  A node whose `parts`
is truthy (present and non-empty) runs the child loop `bodyLoop` with
empty accumulators; otherwise a `text/plain`/`text/html` node decodes
its own body data and anything else gives `""`. -/
def MessagePayload.extract_body_text : MessagePayload → String
  | MessagePayload.mk _ _ _ (some (q :: qs)) _ =>
    bodyLoop (q :: qs) "" ""
  | MessagePayload.mk mt fn bd pr hs =>
    if mt == "text/plain" || mt == "text/html" then
      (MessagePayload.mk mt fn bd pr hs).decode_body_data
    else ""
  termination_by p => sizeOf p

/-- The `for part in self.parts` loop of `extract_body_text` with its
two accumulators.  A child with truthy `body.attachment_id` is skipped;
a `text/plain` child appends to `plain`, a `text/html` child to `html`;
any other child with non-empty recursive text is returned immediately
when both accumulators are empty and appended to `plain` otherwise.
After the loop the result is `plain or html`. -/
def bodyLoop : List MessagePayload → String → String → String
  | [], plain, html => if plain == "" then html else plain
  | q :: qs, plain, html =>
    if truthy q.body.attachment_id then bodyLoop qs plain html
    else
      let t := q.extract_body_text
      if q.is_text_plain then bodyLoop qs (plain ++ t) html
      else if q.is_text_html then bodyLoop qs plain (html ++ t)
      else if t == "" then bodyLoop qs plain html
      else if plain == "" && html == "" then t
      else bodyLoop qs (plain ++ t) html
  termination_by l _ _ => sizeOf l

end

mutual

/-- `extract_attachments` (models.py lines 196-214): the node's own
attachment (if `create_attachment` yields one) followed by the
children's attachments in order. -/
def MessagePayload.extract_attachments : MessagePayload → List Attachment
  | MessagePayload.mk mt fn bd (some l) hs =>
    (match (MessagePayload.mk mt fn bd (some l) hs).create_attachment with
     | some a => [a]
     | none => []) ++ attLoop l
  | MessagePayload.mk mt fn bd none hs =>
    match (MessagePayload.mk mt fn bd none hs).create_attachment with
    | some a => [a]
    | none => []
  termination_by p => sizeOf p

/-- The `for sub_part in self.parts` loop of `extract_attachments`. -/
def attLoop : List MessagePayload → List Attachment
  | [] => []
  | q :: qs => q.extract_attachments ++ attLoop qs
  termination_by l => sizeOf l

end

/-! ### Basic string lemmas used by the proofs -/

theorem str_mk_append (l1 l2 : List Char) :
    String.mk l1 ++ String.mk l2 = String.mk (l1 ++ l2) := rfl

theorem str_data_append (s t : String) : (s ++ t).data = s.data ++ t.data := by
  cases s; cases t; rfl

theorem str_append_empty (s : String) : s ++ "" = s := by
  cases s with
  | mk l => show String.mk (l ++ []) = String.mk l; rw [List.append_nil]

theorem str_empty_append (s : String) : "" ++ s = s := by
  cases s with
  | mk l => rfl

theorem str_append_assoc (a b c : String) : a ++ b ++ c = a ++ (b ++ c) := by
  cases a; cases b; cases c
  show String.mk _ = String.mk _
  rw [List.append_assoc]

theorem str_eq_empty_iff (s : String) : s = "" ↔ s.data = [] := by
  constructor
  · intro h; subst h; rfl
  · intro h
    cases s with
    | mk l =>
      have hl : l = [] := h
      subst hl; rfl

theorem str_append_eq_empty_iff (s t : String) : s ++ t = "" ↔ s = "" ∧ t = "" := by
  rw [str_eq_empty_iff, str_data_append, List.append_eq_nil,
    ← str_eq_empty_iff, ← str_eq_empty_iff]

/-- Concatenation of a list of strings (left fold of append). -/
def strConcat : List String → String
  | [] => ""
  | s :: ss => s ++ strConcat ss

theorem strConcat_eq_empty_iff (ss : List String) :
    strConcat ss = "" ↔ ∀ s ∈ ss, s = "" := by
  induction ss with
  | nil => simp [strConcat]
  | cons s ss ih => simp [strConcat, str_append_eq_empty_iff, ih]

/-! ### Specification-side definitions

These definitions are written from the specification's words (spec.md
§4.4 and the claims), to be compared with the source-derived functions
above. -/

mutual

/-- Depth-first, left-to-right list of all nodes of the tree (the node
itself first, then the children's traversals in child order). -/
def preorder : MessagePayload → List MessagePayload
  | MessagePayload.mk mt fn bd (some l) hs =>
    MessagePayload.mk mt fn bd (some l) hs :: preorderList l
  | MessagePayload.mk mt fn bd none hs => [MessagePayload.mk mt fn bd none hs]
  termination_by p => sizeOf p

/-- Preorder traversal of a forest. -/
def preorderList : List MessagePayload → List MessagePayload
  | [] => []
  | q :: qs => preorder q ++ preorderList qs
  termination_by l => sizeOf l

end

mutual

/-- Modelled from the spec: the reference recursion for body-text
extraction stated in spec.md §4.4 / claim C4.  A node with children
runs the reference pass with both accumulators empty; a leaf returns
the Byte Decoder applied to `body.data` when the MIME type is exactly
`text/plain` or `text/html` and `data` is present, else `""`. -/
def extractBodyTextRef : MessagePayload → String
  | MessagePayload.mk _ _ _ (some (q :: qs)) _ => bodyLoopRef (q :: qs) "" ""
  | MessagePayload.mk mt _ bd _ _ =>
    if mt == "text/plain" || mt == "text/html" then
      match bd.data with
      | some d => decode_base64_text d
      | none => ""
    else ""
  termination_by p => sizeOf p

/-- Modelled from the spec: the reference left-to-right pass of claim
C4.  A skipped child contributes nothing; a `text/plain` child's
recursive text goes to the `plain` accumulator, a `text/html` child's
to `html`; any other child with non-empty recursive text is returned
immediately when both accumulators are still empty, else appended to
`plain`; after the pass the result is `plain` if non-empty, else
`html`, else empty. -/
def bodyLoopRef : List MessagePayload → String → String → String
  | [], plain, html => if plain == "" then html else plain
  | q :: qs, plain, html =>
    if truthy q.body.attachment_id then bodyLoopRef qs plain html
    else
      let t := extractBodyTextRef q
      if q.mime_type == "text/plain" then bodyLoopRef qs (plain ++ t) html
      else if q.mime_type == "text/html" then bodyLoopRef qs plain (html ++ t)
      else if t == "" then bodyLoopRef qs plain html
      else if plain == "" && html == "" then t
      else bodyLoopRef qs (plain ++ t) html
  termination_by l _ _ => sizeOf l

end

/-- The concatenated recursive texts of the non-skipped `text/plain`
children of a child list, in order (claim C1's "the plain-text
content"). -/
def plainChildrenText (l : List MessagePayload) : String :=
  strConcat ((l.filter fun q =>
    !truthy q.body.attachment_id && q.is_text_plain).map MessagePayload.extract_body_text)

/-- The concatenated recursive texts of the non-skipped `text/html`
children of a child list, in order. -/
def htmlChildrenText (l : List MessagePayload) : String :=
  strConcat ((l.filter fun q =>
    !truthy q.body.attachment_id && q.is_text_html).map MessagePayload.extract_body_text)

/-- Worker for `lastWins`, scanning the reversed header list. -/
def lastWinsRev : List Header → String → String
  | [], _ => ""
  | h :: rest, k => if pyLower (hGetName h) == k then hGetValue h else lastWinsRev rest k

/-- Modelled from the spec (claim C6): the case-insensitive lookup in
which the last occurrence of a duplicated header name wins. -/
def lastWins (hs : List Header) (k : String) : String := lastWinsRev hs.reverse k

/-- Modelled from the spec (claim C3): the resolved filename of a node
is `node.filename` if non-empty, else the header resolver's result. -/
def resolvedFilenameSpec (p : MessagePayload) : Option String :=
  if truthy p.filename then p.filename else p.extract_filename_from_headers

/-- Modelled from the spec (claim C3): the attachment emitted for a
node — present exactly when `body.attachment_id` is truthy and a
truthy filename resolves, with the stated four fields. -/
def claimAttachment (p : MessagePayload) : Option Attachment :=
  if truthy p.body.attachment_id && truthy (resolvedFilenameSpec p) then
    some ⟨p.body.attachment_id.getD "", (resolvedFilenameSpec p).getD "",
      p.mime_type, p.body.size⟩
  else none

/-- Replace an empty-string `attachment_id` by an absent one. -/
def normBody (bd : PayloadBody) : PayloadBody :=
  ⟨if bd.attachment_id = some "" then none else bd.attachment_id, bd.data, bd.size⟩

mutual

/-- Rewrite every empty-string `attachment_id` in the tree to an absent
one (claim C10's "treated as absent"). -/
def normAttId : MessagePayload → MessagePayload
  | MessagePayload.mk mt fn bd (some l) hs =>
    MessagePayload.mk mt fn (normBody bd) (some (normAttIdList l)) hs
  | MessagePayload.mk mt fn bd none hs =>
    MessagePayload.mk mt fn (normBody bd) none hs
  termination_by p => sizeOf p

/-- `normAttId` over a child list. -/
def normAttIdList : List MessagePayload → List MessagePayload
  | [] => []
  | q :: qs => normAttId q :: normAttIdList qs
  termination_by l => sizeOf l

end

/-! ### Structural lemmas -/

theorem sizeOf_lt_of_mem_parts {q : MessagePayload} {l : List MessagePayload}
    (hq : q ∈ l) (mt : String) (fn : Option String) (bd : PayloadBody)
    (hs : Option (List Header)) :
    sizeOf q < sizeOf (MessagePayload.mk mt fn bd (some l) hs) := by
  have h1 := List.sizeOf_lt_of_mem hq
  simp only [MessagePayload.mk.sizeOf_spec, Option.some.sizeOf_spec]
  omega

theorem preorderList_eq_flatten (l : List MessagePayload) :
    preorderList l = (l.map preorder).flatten := by
  induction l with
  | nil => simp [preorderList]
  | cons q qs ih => simp [preorderList, ih]

theorem attLoop_eq_filterMap (l : List MessagePayload)
    (ih : ∀ q ∈ l,
      q.extract_attachments = (preorder q).filterMap MessagePayload.create_attachment) :
    attLoop l = (preorderList l).filterMap MessagePayload.create_attachment := by
  induction l with
  | nil => simp [attLoop, preorderList]
  | cons q qs ihl =>
    rw [attLoop, preorderList, List.filterMap_append, ih q (by simp),
      ihl (fun r hr => ih r (by simp [hr]))]

theorem extract_attachments_eq_aux : ∀ (n : Nat) (p : MessagePayload), sizeOf p ≤ n →
    p.extract_attachments = (preorder p).filterMap MessagePayload.create_attachment := by
  intro n
  induction n with
  | zero =>
    intro p hp
    cases p with
    | mk mt fn bd pr hs =>
      simp only [MessagePayload.mk.sizeOf_spec] at hp
      omega
  | succ n ih =>
    intro p hp
    cases p with
    | mk mt fn bd pr hs =>
      cases pr with
      | none =>
        rw [MessagePayload.extract_attachments, preorder]
        cases h : (MessagePayload.mk mt fn bd none hs).create_attachment <;>
          simp [List.filterMap, h]
      | some l =>
        have hl : ∀ q ∈ l,
            q.extract_attachments = (preorder q).filterMap MessagePayload.create_attachment := by
          intro q hq
          apply ih
          have := sizeOf_lt_of_mem_parts hq mt fn bd hs
          simp only [MessagePayload.mk.sizeOf_spec] at hp ⊢
          simp only [MessagePayload.mk.sizeOf_spec] at this
          omega
        rw [MessagePayload.extract_attachments, preorder, List.filterMap_cons,
          attLoop_eq_filterMap l hl]
        cases h : (MessagePayload.mk mt fn bd (some l) hs).create_attachment <;> simp [h]

theorem extract_attachments_preorder (p : MessagePayload) :
    p.extract_attachments = (preorder p).filterMap MessagePayload.create_attachment :=
  extract_attachments_eq_aux (sizeOf p) p le_rfl

theorem bodyLoop_congr (l : List MessagePayload)
    (ih : ∀ q ∈ l, q.extract_body_text = extractBodyTextRef q) :
    ∀ pl hl, bodyLoop l pl hl = bodyLoopRef l pl hl := by
  induction l with
  | nil => intro pl hl; rw [bodyLoop, bodyLoopRef]
  | cons q qs ihl =>
    intro pl hl
    have hq := ih q (by simp)
    have ihqs := ihl (fun r hr => ih r (by simp [hr]))
    rw [bodyLoop, bodyLoopRef, hq]
    cases h1 : truthy q.body.attachment_id <;>
      simp only [Bool.false_eq_true, if_true, if_false, ihqs,
        MessagePayload.is_text_plain, MessagePayload.is_text_html]

theorem extract_body_text_agree_aux : ∀ (n : Nat) (p : MessagePayload), sizeOf p ≤ n →
    p.extract_body_text = extractBodyTextRef p := by
  intro n
  induction n with
  | zero =>
    intro p hp
    cases p with
    | mk mt fn bd pr hs =>
      simp only [MessagePayload.mk.sizeOf_spec] at hp
      omega
  | succ n ih =>
    intro p hp
    cases p with
    | mk mt fn bd pr hs =>
      have leaf : ∀ (pr' : Option (List MessagePayload)),
          (if mt == "text/plain" || mt == "text/html" then
            (MessagePayload.mk mt fn bd pr' hs).decode_body_data else "") =
          (if mt == "text/plain" || mt == "text/html" then
            (match bd.data with
             | some d => decode_base64_text d
             | none => "") else "") := by
        intro pr'
        have h0 : decode_base64_text "" = "" := by decide
        rcases bd with ⟨aid, dat, sz⟩
        cases dat with
        | none => rfl
        | some d =>
          by_cases hd : d = ""
          · subst hd
            simp [MessagePayload.decode_body_data, MessagePayload.body, h0]
          · simp [MessagePayload.decode_body_data, MessagePayload.body, hd]
      cases pr with
      | none =>
        simp only [MessagePayload.extract_body_text, extractBodyTextRef]
        exact leaf none
      | some l =>
        cases l with
        | nil =>
          simp only [MessagePayload.extract_body_text, extractBodyTextRef]
          exact leaf (some [])
        | cons q qs =>
          rw [MessagePayload.extract_body_text, extractBodyTextRef]
          apply bodyLoop_congr
          intro r hr
          apply ih
          have := sizeOf_lt_of_mem_parts hr mt fn bd hs
          simp only [MessagePayload.mk.sizeOf_spec] at hp this ⊢
          omega

theorem extract_body_text_agree (p : MessagePayload) :
    p.extract_body_text = extractBodyTextRef p :=
  extract_body_text_agree_aux (sizeOf p) p le_rfl

theorem bodyLoop_skip (q : MessagePayload) (qs : List MessagePayload) (pl hl : String)
    (h : truthy q.body.attachment_id = true) :
    bodyLoop (q :: qs) pl hl = bodyLoop qs pl hl := by
  rw [bodyLoop, h]
  simp

theorem normAttId_body (p : MessagePayload) : (normAttId p).body = normBody p.body := by
  rcases p with ⟨mt, fn, bd, pr, hs⟩
  cases pr <;> rw [normAttId] <;> rfl

theorem normAttId_mime (p : MessagePayload) : (normAttId p).mime_type = p.mime_type := by
  rcases p with ⟨mt, fn, bd, pr, hs⟩
  cases pr <;> rw [normAttId] <;> rfl

theorem normBody_truthy (bd : PayloadBody) :
    truthy (normBody bd).attachment_id = truthy bd.attachment_id := by
  rcases bd with ⟨aid, dat, sz⟩
  cases aid with
  | none => rfl
  | some s =>
    by_cases h : s = ""
    · subst h; rfl
    · simp [normBody, truthy, h]

theorem create_attachment_norm (p : MessagePayload) :
    (normAttId p).create_attachment = p.create_attachment := by
  rcases p with ⟨mt, fn, ⟨aid, dat, sz⟩, pr, hs⟩
  have key : ∀ (pr1 pr2 : Option (List MessagePayload)),
      (MessagePayload.mk mt fn (normBody ⟨aid, dat, sz⟩) pr1 hs).create_attachment =
      (MessagePayload.mk mt fn ⟨aid, dat, sz⟩ pr2 hs).create_attachment := by
    intro pr1 pr2
    cases aid with
    | none => rfl
    | some s =>
      by_cases h : s = ""
      · subst h; rfl
      · have hnb : normBody ⟨some s, dat, sz⟩ = ⟨some s, dat, sz⟩ := by
          simp [normBody, h]
        rw [hnb]
        rfl
  cases pr with
  | none => rw [normAttId]; exact key none none
  | some l => rw [normAttId]; exact key (some (normAttIdList l)) (some l)

theorem bodyLoop_norm (l : List MessagePayload)
    (ih : ∀ q ∈ l, (normAttId q).extract_body_text = q.extract_body_text) :
    ∀ pl hl, bodyLoop (normAttIdList l) pl hl = bodyLoop l pl hl := by
  induction l with
  | nil => intro pl hl; rw [normAttIdList]
  | cons q qs ihl =>
    intro pl hl
    rw [normAttIdList, bodyLoop, bodyLoop]
    have hq := ih q (by simp)
    have h1 : truthy (normAttId q).body.attachment_id = truthy q.body.attachment_id := by
      rw [normAttId_body, normBody_truthy]
    have h2 : (normAttId q).is_text_plain = q.is_text_plain := by
      simp [MessagePayload.is_text_plain, normAttId_mime]
    have h3 : (normAttId q).is_text_html = q.is_text_html := by
      simp [MessagePayload.is_text_html, normAttId_mime]
    simp only [h1, h2, h3, hq, ihl (fun r hr => ih r (by simp [hr]))]

theorem extract_body_text_norm_aux : ∀ (n : Nat) (p : MessagePayload), sizeOf p ≤ n →
    (normAttId p).extract_body_text = p.extract_body_text := by
  intro n
  induction n with
  | zero =>
    intro p hp
    rcases p with ⟨mt, fn, bd, pr, hs⟩
    simp only [MessagePayload.mk.sizeOf_spec] at hp
    omega
  | succ n ih =>
    intro p hp
    rcases p with ⟨mt, fn, bd, pr, hs⟩
    have leafEq : ∀ (pr1 pr2 : Option (List MessagePayload)),
        (if mt == "text/plain" || mt == "text/html" then
          (MessagePayload.mk mt fn (normBody bd) pr1 hs).decode_body_data else "") =
        (if mt == "text/plain" || mt == "text/html" then
          (MessagePayload.mk mt fn bd pr2 hs).decode_body_data else "") := by
      intro pr1 pr2
      rcases bd with ⟨aid, dat, sz⟩
      rfl
    cases pr with
    | none =>
      rw [normAttId]
      simp only [MessagePayload.extract_body_text]
      exact leafEq none none
    | some l =>
      cases l with
      | nil =>
        rw [normAttId, normAttIdList]
        simp only [MessagePayload.extract_body_text]
        exact leafEq (some []) (some [])
      | cons q qs =>
        rw [normAttId, normAttIdList]
        rw [MessagePayload.extract_body_text, MessagePayload.extract_body_text]
        rw [show normAttId q :: normAttIdList qs = normAttIdList (q :: qs) from
          (normAttIdList.eq_2 q qs).symm]
        apply bodyLoop_norm
        intro r hr
        apply ih
        have := sizeOf_lt_of_mem_parts hr mt fn bd hs
        simp only [MessagePayload.mk.sizeOf_spec] at hp this ⊢
        omega

theorem extract_body_text_norm (p : MessagePayload) :
    (normAttId p).extract_body_text = p.extract_body_text :=
  extract_body_text_norm_aux (sizeOf p) p le_rfl

theorem attLoop_norm (l : List MessagePayload)
    (ih : ∀ q ∈ l, (normAttId q).extract_attachments = q.extract_attachments) :
    attLoop (normAttIdList l) = attLoop l := by
  induction l with
  | nil => rw [normAttIdList]
  | cons q qs ihl =>
    rw [normAttIdList, attLoop, attLoop, ih q (by simp),
      ihl (fun r hr => ih r (by simp [hr]))]

theorem extract_attachments_norm_aux : ∀ (n : Nat) (p : MessagePayload), sizeOf p ≤ n →
    (normAttId p).extract_attachments = p.extract_attachments := by
  intro n
  induction n with
  | zero =>
    intro p hp
    rcases p with ⟨mt, fn, bd, pr, hs⟩
    simp only [MessagePayload.mk.sizeOf_spec] at hp
    omega
  | succ n ih =>
    intro p hp
    rcases p with ⟨mt, fn, bd, pr, hs⟩
    have hcr := create_attachment_norm (MessagePayload.mk mt fn bd pr hs)
    cases pr with
    | none =>
      rw [normAttId] at hcr ⊢
      rw [MessagePayload.extract_attachments, MessagePayload.extract_attachments, hcr]
    | some l =>
      rw [normAttId] at hcr ⊢
      rw [MessagePayload.extract_attachments, MessagePayload.extract_attachments, hcr]
      rw [attLoop_norm l]
      intro r hr
      apply ih
      have := sizeOf_lt_of_mem_parts hr mt fn bd hs
      simp only [MessagePayload.mk.sizeOf_spec] at hp this ⊢
      omega

theorem extract_attachments_norm (p : MessagePayload) :
    (normAttId p).extract_attachments = p.extract_attachments :=
  extract_attachments_norm_aux (sizeOf p) p le_rfl

theorem resolver_none_of_falsy_headers (p : MessagePayload)
    (h : truthyList p.headers = false) : p.extract_filename_from_headers = none := by
  rcases p with ⟨mt, fn, bd, pr, hs⟩
  cases hs with
  | none => rfl
  | some l =>
    cases l with
    | nil => rfl
    | cons a as => simp [truthyList, MessagePayload.headers] at h

theorem create_eq_claim (p : MessagePayload) : p.create_attachment = claimAttachment p := by
  unfold MessagePayload.create_attachment claimAttachment resolvedFilenameSpec
  cases h1 : truthy p.body.attachment_id with
  | false => simp [h1]
  | true =>
    cases h2 : truthy p.filename with
    | true => simp [h1, h2]
    | false =>
      cases h3 : truthyList p.headers with
      | true =>
        simp only [h1, h2, h3]
        simp only [Bool.not_true, Bool.not_false, Bool.true_and, Bool.false_eq_true,
          if_false, if_true]
        cases h4 : truthy p.extract_filename_from_headers <;> simp [h4]
      | false =>
        have h5 : truthy (none : Option String) = false := rfl
        simp only [h1, h2, h3, resolver_none_of_falsy_headers p h3, h5]
        simp [h2, h5]

theorem dictGet_map_update_ne (d : List (String × String)) (k' v k : String)
    (hk : k ≠ k') :
    dictGet (d.map fun p => if p.1 = k' then (k', v) else p) k = dictGet d k := by
  induction d with
  | nil => rfl
  | cons p d ih =>
    by_cases hp : p.1 = k'
    · have h2 : ¬ k' = k := fun hh => hk hh.symm
      have h3 : ¬ p.1 = k := by rw [hp]; exact h2
      simp only [List.map_cons, if_pos hp, dictGet, if_neg h2, if_neg h3]
      exact ih
    · simp only [List.map_cons, if_neg hp, dictGet]
      by_cases hq : p.1 = k
      · simp only [if_pos hq]
      · simp only [if_neg hq]
        exact ih

theorem dictGet_map_update_self (d : List (String × String)) (k' v : String)
    (hmem : d.any (fun p => p.1 == k') = true) :
    dictGet (d.map fun p => if p.1 = k' then (k', v) else p) k' = v := by
  induction d with
  | nil => simp at hmem
  | cons p d ih =>
    by_cases hp : p.1 = k'
    · simp [dictGet, hp]
    · have hmem' : d.any (fun p => p.1 == k') = true := by
        simp only [List.any_cons, Bool.or_eq_true, beq_iff_eq] at hmem
        rcases hmem with h | h
        · exact absurd h hp
        · simpa [beq_iff_eq] using h
      simp only [List.map_cons, if_neg hp, dictGet, if_neg hp]
      exact ih hmem'

theorem dictGet_append_no_key (d : List (String × String)) (k' v k : String)
    (hmem : d.any (fun p => p.1 == k') = false) :
    dictGet (d ++ [(k', v)]) k = if k = k' then v else dictGet d k := by
  induction d with
  | nil =>
    by_cases hk : k = k'
    · subst hk
      simp [dictGet]
    · have h2 : ¬ k' = k := fun hh => hk hh.symm
      simp [dictGet, h2, hk]
  | cons p d ih =>
    have h1 : ¬ p.1 = k' := by
      simp only [List.any_cons, Bool.or_eq_false_iff, beq_eq_false_iff_ne, ne_eq] at hmem
      exact hmem.1
    have hmem' : d.any (fun p => p.1 == k') = false := by
      simp only [List.any_cons, Bool.or_eq_false_iff] at hmem
      exact hmem.2
    simp only [List.cons_append, dictGet]
    by_cases hq : p.1 = k
    · have hkk' : ¬ k = k' := by
        intro he
        rw [he] at hq
        exact h1 hq
      simp only [if_pos hq, if_neg hkk']
    · simp only [if_neg hq]
      exact ih hmem'

theorem dictGet_insert (d : List (String × String)) (k' v k : String) :
    dictGet (dictInsert d k' v) k = if k = k' then v else dictGet d k := by
  by_cases hmem : d.any (fun p => p.1 == k') = true
  · rw [dictInsert, if_pos hmem]
    by_cases hk : k = k'
    · rw [if_pos hk, hk, dictGet_map_update_self d k' v hmem]
    · rw [if_neg hk, dictGet_map_update_ne d k' v k hk]
  · have hmem' : d.any (fun p => p.1 == k') = false := by
      cases hx : d.any (fun p => p.1 == k') with
      | true => exact absurd hx hmem
      | false => rfl
    rw [dictInsert, if_neg (by rw [hmem']; exact Bool.false_ne_true)]
    exact dictGet_append_no_key d k' v k hmem'

theorem headerDict_snoc (hs : List Header) (h : Header) (k : String) :
    dictGet (headerDict (hs ++ [h])) k =
      if k = pyLower (hGetName h) then hGetValue h else dictGet (headerDict hs) k := by
  rw [headerDict, List.foldl_append]
  exact dictGet_insert _ _ _ _

theorem dictGet_headerDict_eq_lastWins (hs : List Header) (k : String) :
    dictGet (headerDict hs) k = lastWins hs k := by
  induction hs using List.reverseRecOn with
  | nil => rfl
  | append_singleton hs h ih =>
    rw [headerDict_snoc, lastWins, List.reverse_append]
    simp only [List.reverse_cons, List.reverse_nil, List.nil_append, List.singleton_append]
    rw [lastWinsRev]
    by_cases hk : k = pyLower (hGetName h)
    · rw [if_pos hk, if_pos (by simp [hk])]
    · rw [if_neg hk, if_neg (by simp [beq_iff_eq]; exact fun hh => hk hh.symm), ih]
      rfl

theorem matchToken_some_ne_empty {cs : List Char} {v : String}
    (h : matchToken cs = some v) : v ≠ "" := by
  unfold matchToken at h
  cases htok : cs.takeWhile fun c => !(c == ';') with
  | nil => rw [htok] at h; simp at h
  | cons a as =>
    rw [htok] at h
    simp only [List.isEmpty_cons, Bool.false_eq_true, if_false, Option.some.injEq] at h
    subst h
    intro hv
    have := (str_eq_empty_iff _).mp hv
    exact List.noConfusion this

theorem matchValue_some_ne_empty {cs : List Char} {v : String}
    (h : matchValue cs = some v) : v ≠ "" := by
  unfold matchValue at h
  split at h
  · rename_i cs2
    cases hsplit : splitAtChar '\"' cs2 with
    | none =>
      rw [hsplit] at h
      exact matchToken_some_ne_empty h
    | some pr =>
      rcases pr with ⟨body, post⟩
      rw [hsplit] at h
      have h' : (if body.isEmpty = true then matchToken ('\"' :: cs2)
          else some (String.mk body)) = some v := h
      by_cases hb : body.isEmpty = true
      · rw [if_pos hb] at h'
        exact matchToken_some_ne_empty h'
      · rw [if_neg hb] at h'
        injection h' with h''
        subst h''
        intro hv
        have hd : body = [] := (str_eq_empty_iff _).mp hv
        rw [hd] at hb
        simp at hb
  · exact matchToken_some_ne_empty h

theorem searchParamGo_some_ne_empty (key : List Char) :
    ∀ (fuel : Nat) (cs : List Char) (v : String),
      searchParamGo key fuel cs = some v → v ≠ "" := by
  intro fuel
  induction fuel with
  | zero => intro cs v h; simp [searchParamGo] at h
  | succ n ih =>
    intro cs v h
    cases cs with
    | nil => simp [searchParamGo] at h
    | cons c cs' =>
      rw [searchParamGo] at h
      cases hm : ((matchCI key (c :: cs')).bind matchStarEq).bind matchValue with
      | some w =>
        rw [hm] at h
        cases h
        obtain ⟨y, _, hy⟩ := Option.bind_eq_some.mp hm
        exact matchValue_some_ne_empty hy
      | none =>
        rw [hm] at h
        exact ih cs' v h

theorem searchParam_some_ne_empty {key s : String} {v : String}
    (h : searchParam key s = some v) : v ≠ "" :=
  searchParamGo_some_ne_empty key.data s.data.length s.data v h

theorem searchParam_empty_val (key : String) : searchParam key "" = none := rfl

/-- Helper: a list among whose members some segment fails decodes to
`none` as a whole. -/
theorem decodeSegments_none {parts : List ((String ⊕ List Nat) × Option String)}
    (h : ∃ pc ∈ parts, decodeSegment pc = none) :
    decodeSegments parts = none := by
  induction parts with
  | nil => rcases h with ⟨pc, hmem, _⟩; cases hmem
  | cons a as ih =>
    rcases h with ⟨pc, hmem, hnone⟩
    rcases List.mem_cons.mp hmem with rfl | hmem'
    · simp [decodeSegments, hnone]
    · cases ha : decodeSegment a <;>
        simp [decodeSegments, ha, ih ⟨pc, hmem', hnone⟩]

/-! ### Concrete fixtures used by counterexamples and witnesses -/

/-- Leaf whose body decodes to `"hello"`. -/
def leafPlainHello : MessagePayload :=
  MessagePayload.mk "text/plain" none ⟨none, some "aGVsbG8=", 0⟩ none none

/-- Leaf whose body decodes to `"world"`. -/
def leafPlainWorld : MessagePayload :=
  MessagePayload.mk "text/plain" none ⟨none, some "d29ybGQ=", 0⟩ none none

/-- HTML leaf whose body decodes to `"<b>hi</b>"`. -/
def leafHtmlHi : MessagePayload :=
  MessagePayload.mk "text/html" none ⟨none, some "PGI-aGk8L2I-", 0⟩ none none

/-- A nested container holding only the HTML leaf. -/
def altContainerHtml : MessagePayload :=
  MessagePayload.mk "multipart/alternative" none ⟨none, none, 0⟩ (some [leafHtmlHi]) none

/-- C1 counterexample tree: the nested HTML-only container precedes a
plain-text sibling. -/
def cexC1Tree : MessagePayload :=
  MessagePayload.mk "multipart/mixed" none ⟨none, none, 0⟩
    (some [altContainerHtml, leafPlainHello]) none

/-- Child with an `attachment_id` but no resolvable filename, carrying
inline plain text `"hello"`. -/
def attNoNamePlain : MessagePayload :=
  MessagePayload.mk "text/plain" none ⟨some "att1", some "aGVsbG8=", 0⟩ none none

/-- C2 counterexample tree. -/
def cexC2Tree : MessagePayload :=
  MessagePayload.mk "multipart/mixed" none ⟨none, none, 0⟩
    (some [attNoNamePlain, leafPlainWorld]) none

/-- Container with two plain children and no attachment ids. -/
def c2ContribTree : MessagePayload :=
  MessagePayload.mk "multipart/mixed" none ⟨none, none, 0⟩
    (some [leafPlainHello, leafPlainWorld]) none

/-- Leaf whose body decodes to `"Plain text"` (spec §8 example). -/
def leafPlainText : MessagePayload :=
  MessagePayload.mk "text/plain" none ⟨none, some "UGxhaW4gdGV4dA==", 0⟩ none none

/-- Leaf whose body decodes to `"<p>HTML text</p>"` (spec §8 example). -/
def leafHtmlText : MessagePayload :=
  MessagePayload.mk "text/html" none ⟨none, some "PHA-SFRNTCB0ZXh0PC9wPg==", 0⟩ none none

/-- The spec §8 plain-preferred example container. -/
def specAltTree : MessagePayload :=
  MessagePayload.mk "multipart/alternative" none ⟨none, none, 0⟩
    (some [leafPlainText, leafHtmlText]) none

/-- Node with `attachment_id = "att1"`, no filename, no headers
(spec §8: yields zero attachments). -/
def attNoName : MessagePayload :=
  MessagePayload.mk "application/pdf" none ⟨some "att1", none, 0⟩ none none

/-- Tree with no attachment-eligible node. -/
def c9Tree : MessagePayload :=
  MessagePayload.mk "multipart/mixed" none ⟨none, none, 0⟩
    (some [leafPlainHello, attNoName]) none

/-- Leaf with every optional field absent. -/
def minimalLeaf : MessagePayload :=
  MessagePayload.mk "text/plain" none ⟨none, none, 0⟩ none none

/-- Plain-text child whose `attachment_id` is the empty string. -/
def emptyAttPlain : MessagePayload :=
  MessagePayload.mk "text/plain" none ⟨some "", some "aGVsbG8=", 0⟩ none none

/-- Container holding only `emptyAttPlain`. -/
def c10Tree : MessagePayload :=
  MessagePayload.mk "multipart/mixed" none ⟨none, none, 0⟩ (some [emptyAttPlain]) none

/-- The spec §8 Content-Disposition header. -/
def cdHeader : Header :=
  ⟨some "Content-Disposition", some "attachment; filename=\"document.pdf\""⟩

/-- The spec §8 Content-Type header. -/
def ctHeader : Header :=
  ⟨some "Content-Type", some "application/pdf; name=\"other.pdf\""⟩

/-- Attachment node carrying both headers of the precedence example. -/
def precedenceNode : MessagePayload :=
  MessagePayload.mk "application/pdf" none ⟨some "att9", none, 4⟩ none
    (some [cdHeader, ctHeader])

theorem is_text_html_eq_false_of_plain {p : MessagePayload} (h : p.is_text_plain = true) :
    p.is_text_html = false := by
  simp only [MessagePayload.is_text_plain, beq_iff_eq] at h
  simp [MessagePayload.is_text_html, h]

theorem bodyLoop_structured (l : List MessagePayload)
    (hother : ∀ q ∈ l, truthy q.body.attachment_id = false →
      q.is_text_plain = false → q.is_text_html = false → q.extract_body_text = "") :
    ∀ pl hl, bodyLoop l pl hl =
      if pl ++ plainChildrenText l = "" then hl ++ htmlChildrenText l
      else pl ++ plainChildrenText l := by
  induction l with
  | nil =>
    intro pl hl
    simp [bodyLoop, plainChildrenText, htmlChildrenText, strConcat, str_append_empty]
  | cons q qs ih =>
    intro pl hl
    have ihqs := ih (fun r hr => hother r (by simp [hr]))
    cases h1 : truthy q.body.attachment_id with
    | true =>
      rw [bodyLoop_skip q qs pl hl h1, ihqs]
      simp [plainChildrenText, htmlChildrenText, List.filter_cons, h1]
    | false =>
      rw [bodyLoop]
      simp only [h1, Bool.false_eq_true, if_false]
      cases h2 : q.is_text_plain with
      | true =>
        have h3 := is_text_html_eq_false_of_plain h2
        simp only [h2, if_true, ihqs]
        simp [plainChildrenText, htmlChildrenText, List.filter_cons, h1, h2, h3, strConcat,
          str_append_assoc]
      | false =>
        cases h3 : q.is_text_html with
        | true =>
          simp only [h2, h3, Bool.false_eq_true, if_false, if_true, ihqs]
          simp [plainChildrenText, htmlChildrenText, List.filter_cons, h1, h2, h3, strConcat,
            str_append_assoc]
        | false =>
          have ht := hother q (by simp) h1 h2 h3
          simp only [h2, h3, Bool.false_eq_true, if_false, ht]
          simp only [show ("" == "") = true from rfl, if_true, ihqs]
          simp [plainChildrenText, htmlChildrenText, List.filter_cons, h1, h2, h3]

theorem bodyLoop_filter_skipped (l : List MessagePayload) :
    ∀ pl hl, bodyLoop l pl hl =
      bodyLoop (l.filter fun q => !truthy q.body.attachment_id) pl hl := by
  induction l with
  | nil => intro pl hl; simp
  | cons q qs ih =>
    intro pl hl
    cases h : truthy q.body.attachment_id with
    | true => simp [bodyLoop, h, List.filter_cons, ih]
    | false =>
      simp only [List.filter_cons, h, Bool.not_false, if_true]
      rw [bodyLoop, bodyLoop]
      simp only [h, Bool.false_eq_true, if_false, ih]

/-! ### Claim theorems -/

/-- Claim C1, counterexample.  `cexC1Tree` contains a `text/plain` part
decoding to `"hello"` (a direct, non-skipped child of the root) and a
`text/html` part decoding to `"<b>hi</b>"`, so the claim as stated says
`extract_body_text` returns the plain content and never the HTML
content; the code instead short-circuits on the nested container child
and returns the HTML content `"<b>hi</b>"`. -/
theorem c1_counterexample :
    MessagePayload.extract_body_text cexC1Tree = "<b>hi</b>" ∧
    MessagePayload.extract_body_text leafPlainHello = "hello" ∧
    leafPlainHello.is_text_plain = true ∧
    MessagePayload.extract_body_text leafHtmlHi = "<b>hi</b>" ∧
    leafHtmlHi.is_text_html = true ∧
    ("<b>hi</b>" : String) ≠ "hello" := by
  refine ⟨?_, ?_, by decide, ?_, by decide, by decide⟩ <;>
    · simp [cexC1Tree, altContainerHtml, leafPlainHello, leafHtmlHi,
        MessagePayload.extract_body_text, bodyLoop, MessagePayload.is_text_plain,
        MessagePayload.is_text_html, MessagePayload.body, MessagePayload.mime_type,
        MessagePayload.decode_body_data, truthy]
      decide

/-- Claim C1 (amended): plain is preferred over HTML for every container
whose children that are neither `text/plain` nor `text/html` contribute
no recursive text (so the short-circuit branch cannot fire).  When some
non-skipped `text/plain` child contributes non-empty text, the result is
exactly the concatenation of the non-skipped plain children's texts —
never the HTML content.  (The counterexample shows the original
"regardless of where in the subtree each occurs" fails: a nested
non-text container child with non-empty text can be returned, HTML
included, before a later plain sibling is seen.) -/
theorem c1_amended (mt : String) (fn : Option String) (bd : PayloadBody)
    (hs : Option (List Header)) (l : List MessagePayload)
    (hplain : ∃ q ∈ l, truthy q.body.attachment_id = false ∧ q.is_text_plain = true ∧
      q.extract_body_text ≠ "")
    (hother : ∀ q ∈ l, truthy q.body.attachment_id = false →
      q.is_text_plain = false → q.is_text_html = false → q.extract_body_text = "") :
    (MessagePayload.mk mt fn bd (some l) hs).extract_body_text = plainChildrenText l ∧
    plainChildrenText l ≠ "" := by
  obtain ⟨q0, hq0mem, hq0skip, hq0plain, hq0text⟩ := hplain
  have hne : plainChildrenText l ≠ "" := by
    unfold plainChildrenText
    intro hcon
    rw [strConcat_eq_empty_iff] at hcon
    apply hq0text
    apply hcon
    apply List.mem_map_of_mem
    rw [List.mem_filter]
    exact ⟨hq0mem, by simp [hq0skip, hq0plain]⟩
  refine ⟨?_, hne⟩
  cases l with
  | nil => cases hq0mem
  | cons q qs =>
    rw [MessagePayload.extract_body_text, bodyLoop_structured (q :: qs) hother "" ""]
    simp only [str_empty_append]
    rw [if_neg hne]

/-- Witness for C1's amended theorem at the spec §8 example (one plain
child `"Plain text"`, one HTML child `"<p>HTML text</p>"`). -/
theorem c1_amended_witness :
    MessagePayload.extract_body_text specAltTree =
      plainChildrenText [leafPlainText, leafHtmlText] := by
  have h := c1_amended "multipart/alternative" none ⟨none, none, 0⟩ none
    [leafPlainText, leafHtmlText]
    ⟨leafPlainText, by simp, rfl, rfl, by
      simp [leafPlainText, MessagePayload.extract_body_text,
        MessagePayload.decode_body_data, MessagePayload.body]
      decide⟩
    (by
      intro q hq h1 h2 h3
      rcases List.mem_cons.mp hq with rfl | hq'
      · exact absurd h2 (by decide)
      · rcases List.mem_cons.mp hq' with rfl | hq''
        · exact absurd h3 (by decide)
        · cases hq'')
  exact h.1

/-- Claim C2, counterexample.  `attNoNamePlain` has
`attachment_id = "att1"` but no resolvable filename (its
`create_attachment` is `None`), so per the claim it is not
attachment-eligible and must not be skipped; its decoded text is
`"hello"`.  The code nevertheless skips it: the container's body text is
`"world"` alone, not `"helloworld"`. -/
theorem c2_counterexample :
    attNoNamePlain.body.attachment_id = some "att1" ∧
    attNoNamePlain.create_attachment = none ∧
    MessagePayload.extract_body_text attNoNamePlain = "hello" ∧
    MessagePayload.extract_body_text cexC2Tree = "world" ∧
    ("world" : String) ≠ "helloworld" := by
  refine ⟨rfl, by decide, ?_, ?_, by decide⟩ <;>
    · simp [cexC2Tree, attNoNamePlain, leafPlainWorld,
        MessagePayload.extract_body_text, bodyLoop, MessagePayload.is_text_plain,
        MessagePayload.is_text_html, MessagePayload.body, MessagePayload.mime_type,
        MessagePayload.decode_body_data, truthy]
      decide

/-- Claim C2 (amended): during `extract_body_text`'s pass over a
container's children, a child is skipped exactly when its
`body.attachment_id` is present and non-empty — filename resolvability
plays no role.  First conjunct: such a child contributes nothing;
second: dropping all such children from the pass leaves the result
unchanged (so nothing else is skipped); third: a child without an
`attachment_id` does contribute (`"hello" ++ "world"`). -/
theorem c2_amended :
    (∀ (q : MessagePayload) (rest : List MessagePayload) (pl hl : String),
      truthy q.body.attachment_id = true →
      bodyLoop (q :: rest) pl hl = bodyLoop rest pl hl) ∧
    (∀ (l : List MessagePayload) (pl hl : String),
      bodyLoop l pl hl = bodyLoop (l.filter fun q => !truthy q.body.attachment_id) pl hl) ∧
    MessagePayload.extract_body_text c2ContribTree = "helloworld" := by
  refine ⟨fun q rest pl hl h => bodyLoop_skip q rest pl hl h,
    fun l pl hl => bodyLoop_filter_skipped l pl hl, ?_⟩
  simp [c2ContribTree, leafPlainHello, leafPlainWorld,
    MessagePayload.extract_body_text, bodyLoop, MessagePayload.is_text_plain,
    MessagePayload.is_text_html, MessagePayload.body, MessagePayload.mime_type,
    MessagePayload.decode_body_data, truthy]
  decide

/-- Witness for C2's amended theorem: the skip equation applied to the
concrete attachment-id child. -/
theorem c2_amended_witness :
    bodyLoop [attNoNamePlain] "" "" = bodyLoop [] "" "" :=
  c2_amended.1 attNoNamePlain [] "" "" rfl

/-- Claim C3: `create_attachment` emits an attachment exactly per the
eligibility rule (truthy `attachment_id` and a truthy resolved filename,
where the filename is `node.filename` if non-empty, else the header
resolver's result), with the four stated fields; `extract_attachments`
emits exactly the eligible nodes of the preorder traversal; and the
spec's `att1`-without-name node yields zero attachments. -/
theorem c3_eligibility :
    (∀ p : MessagePayload, p.create_attachment = claimAttachment p) ∧
    (∀ p : MessagePayload,
      p.extract_attachments = (preorder p).filterMap claimAttachment) ∧
    attNoName.extract_attachments = [] := by
  have hfun : MessagePayload.create_attachment = claimAttachment :=
    funext create_eq_claim
  refine ⟨create_eq_claim, ?_, ?_⟩
  · intro p
    rw [extract_attachments_preorder, hfun]
  · simp [attNoName, MessagePayload.extract_attachments, attLoop,
      MessagePayload.create_attachment, MessagePayload.body, MessagePayload.filename,
      MessagePayload.headers, truthy, truthyList]

/-- Claim C4: `extract_body_text` follows the reference recursion of the
spec exactly (container pass with the two accumulators, the short-circuit
branch, `plain or html or empty` after the pass, and the leaf rule
decoding `body.data` only for exact `text/plain`/`text/html`). -/
theorem c4_reference_recursion (p : MessagePayload) :
    p.extract_body_text = extractBodyTextRef p :=
  extract_body_text_agree p

/-- Claim C5, counterexample.  For the declared but unsupported charset
`bogus-charset`, the claim says the Filename Decoder falls back to UTF-8
with lossy handling, which would give `"hello"`; the code instead hits
the `LookupError` failure path and returns the input unchanged. -/
theorem c5_counterexample :
    decode_header "=?bogus-charset?B?aGVsbG8=?=" =
      some [(Sum.inr [104, 101, 108, 108, 111], some "bogus-charset")] ∧
    codecLookup "bogus-charset" = none ∧
    utf8DecodeIgnore [104, 101, 108, 108, 111] = "hello" ∧
    decode_rfc2047_filename "=?bogus-charset?B?aGVsbG8=?=" =
      "=?bogus-charset?B?aGVsbG8=?=" ∧
    ("=?bogus-charset?B?aGVsbG8=?=" : String) ≠ "hello" := by
  refine ⟨by decide, by decide, by decide, by decide, by decide⟩

/-- Claim C5 (amended): the Filename Decoder decodes each RFC 2047
encoded-word using its declared charset, falls back to UTF-8 with lossy
handling when the charset is absent (`None` or empty), concatenates all
segments in order, and on any failure — including an unsupported
declared charset — returns the original input string unchanged, never
raising. -/
theorem c5_amended :
    (∀ s : String, decode_header s = none → decode_rfc2047_filename s = s) ∧
    (∀ (s : String) (parts : List ((String ⊕ List Nat) × Option String)),
      decode_header s = some parts → (∃ pc ∈ parts, decodeSegment pc = none) →
      decode_rfc2047_filename s = s) ∧
    (∀ (s : String) (parts : List ((String ⊕ List Nat) × Option String))
      (segs : List String),
      decode_header s = some parts → decodeSegments parts = some segs →
      decode_rfc2047_filename s = String.join segs) ∧
    (∀ bs : List Nat, decodeSegment (Sum.inr bs, none) = some (utf8DecodeIgnore bs) ∧
      decodeSegment (Sum.inr bs, some "") = some (utf8DecodeIgnore bs)) ∧
    decode_rfc2047_filename "=?utf-8?B?aGVsbG8=?=" = "hello" ∧
    decode_rfc2047_filename "=??B?aGk=?=" = "hi" ∧
    decode_rfc2047_filename "=?utf-8?B?a?=" = "=?utf-8?B?a?=" := by
  refine ⟨?_, ?_, ?_, ?_, by decide, by decide, by decide⟩
  · intro s h
    simp [decode_rfc2047_filename, h]
  · intro s parts hsome hex
    simp [decode_rfc2047_filename, hsome, decodeSegments_none hex]
  · intro s parts segs hsome hmapm
    simp [decode_rfc2047_filename, hsome, hmapm]
  · intro bs
    exact ⟨rfl, rfl⟩

/-- Witness for C5's amended theorem: the failure clause at a bad base64
encoded-word and the success clause at a declared `utf-8` word. -/
theorem c5_amended_witness :
    decode_rfc2047_filename "=?utf-8?B?a?=" = "=?utf-8?B?a?=" ∧
    decode_rfc2047_filename "=?utf-8?B?aGVsbG8=?=" = String.join ["hello"] :=
  ⟨c5_amended.1 "=?utf-8?B?a?=" (by decide),
   c5_amended.2.2.1 "=?utf-8?B?aGVsbG8=?="
     [(Sum.inr [104, 101, 108, 108, 111], some "utf-8")] ["hello"]
     (by decide) (by decide)⟩

/-- Claim C6: the Header Filename Resolver builds a case-insensitive
name-to-value map where the last occurrence of a duplicated name wins
(first conjunct), returns the trimmed, Filename-Decoded
`filename`/`filename*` parameter of Content-Disposition whenever one
matches (second conjunct — Content-Type is then never consulted), falls
back to Content-Type's `name`/`name*` parameter exactly when
Content-Disposition yields no match (third conjunct), and on the spec's
example Content-Disposition wins with `"document.pdf"` (fourth). -/
theorem c6_resolver :
    (∀ (hs : List Header) (k : String), dictGet (headerDict hs) k = lastWins hs k) ∧
    (∀ (p : MessagePayload) (hs : List Header) (v : String), p.headers = some hs →
      searchParam "filename" (dictGet (headerDict hs) "content-disposition") = some v →
      p.extract_filename_from_headers = some (decode_rfc2047_filename (pyStrip v))) ∧
    (∀ (p : MessagePayload) (hs : List Header), p.headers = some hs →
      searchParam "filename" (dictGet (headerDict hs) "content-disposition") = none →
      p.extract_filename_from_headers =
        (searchParam "name" (dictGet (headerDict hs) "content-type")).map
          (fun v => decode_rfc2047_filename (pyStrip v))) ∧
    precedenceNode.extract_filename_from_headers = some "document.pdf" := by
  refine ⟨dictGet_headerDict_eq_lastWins, ?_, ?_, by decide⟩
  · intro p hs v hph hsp
    rcases p with ⟨mt, fn, bd, pr, hs'⟩
    have hhs : hs' = some hs := hph
    subst hhs
    cases hs with
    | nil =>
      have h0 : dictGet (headerDict ([] : List Header)) "content-disposition" = "" := rfl
      rw [h0, searchParam_empty_val] at hsp
      exact Option.noConfusion hsp
    | cons h0 hs0 =>
      have hvne : v ≠ "" := searchParam_some_ne_empty hsp
      have hcd : ¬ dictGet (headerDict (h0 :: hs0)) "content-disposition" = "" := by
        intro hcon
        rw [hcon, searchParam_empty_val] at hsp
        exact Option.noConfusion hsp
      simp only [MessagePayload.extract_filename_from_headers, MessagePayload.headers,
        List.isEmpty_cons, Bool.false_eq_true, if_false, extractFilenameFromHeaderList]
      simp [hsp, hcd, hvne]
  · intro p hs hph hsp
    rcases p with ⟨mt, fn, bd, pr, hs'⟩
    have hhs : hs' = some hs := hph
    subst hhs
    cases hs with
    | nil =>
      have h0 : dictGet (headerDict ([] : List Header)) "content-type" = "" := rfl
      rw [h0, searchParam_empty_val]
      rfl
    | cons h0 hs0 =>
      simp only [MessagePayload.extract_filename_from_headers, MessagePayload.headers,
        List.isEmpty_cons, Bool.false_eq_true, if_false, extractFilenameFromHeaderList]
      by_cases hcd : dictGet (headerDict (h0 :: hs0)) "content-disposition" = ""
      · simp only [hcd, searchParam_empty_val]
        simp only [show (("" : String) == "") = true from rfl, if_true]
        by_cases hct : dictGet (headerDict (h0 :: hs0)) "content-type" = ""
        · rw [hct, searchParam_empty_val]
          simp [hct]
        · cases hn : searchParam "name" (dictGet (headerDict (h0 :: hs0)) "content-type") with
          | none => simp [hct, hn]
          | some w =>
            have hwne : w ≠ "" := searchParam_some_ne_empty hn
            simp [hct, hn, hwne]
      · simp only [hsp]
        simp [hcd]
        by_cases hct : dictGet (headerDict (h0 :: hs0)) "content-type" = ""
        · rw [hct, searchParam_empty_val]
          simp [hct]
        · cases hn : searchParam "name" (dictGet (headerDict (h0 :: hs0)) "content-type") with
          | none => simp [hct, hn]
          | some w =>
            have hwne : w ≠ "" := searchParam_some_ne_empty hn
            simp [hct, hn, hwne]

/-- Witness for C6 at the spec's precedence example: Content-Disposition
supplies `document.pdf` and wins over Content-Type's `other.pdf`. -/
theorem c6_resolver_witness :
    precedenceNode.extract_filename_from_headers =
      some (decode_rfc2047_filename (pyStrip "document.pdf")) :=
  c6_resolver.2.1 precedenceNode [cdHeader, ctHeader] "document.pdf" rfl (by decide)

/-- Claim C7: the attachments are exactly the eligible nodes of the
depth-first, left-to-right preorder traversal, in traversal order; a
container's traversal is the node itself followed by its children's
traversals in child order, so a node's own attachment precedes its
children's and recursion descends into every child regardless of the
parent's own eligibility. -/
theorem c7_dfs_order :
    (∀ p : MessagePayload,
      p.extract_attachments = (preorder p).filterMap MessagePayload.create_attachment) ∧
    (∀ (mt : String) (fn : Option String) (bd : PayloadBody) (l : List MessagePayload)
      (hs : Option (List Header)),
      preorder (MessagePayload.mk mt fn bd (some l) hs) =
        MessagePayload.mk mt fn bd (some l) hs :: (l.map preorder).flatten) :=
  ⟨extract_attachments_preorder, fun mt fn bd l hs => by
    rw [preorder, preorderList_eq_flatten]⟩

/-- Claim C8: the Byte Decoder is the lossy UTF-8 decoding of the
URL-safe base64 decoding on success and the empty string on any decode
error, never raising (it is a total function); in particular it maps
`""` to `""` and `"invalid_base64!!!"` to `""`. -/
theorem c8_byte_decoder :
    (∀ s : String, urlsafe_b64decode s = none → decode_base64_text s = "") ∧
    (∀ (s : String) (bs : List Nat), urlsafe_b64decode s = some bs →
      decode_base64_text s = utf8DecodeIgnore bs) ∧
    decode_base64_text "" = "" ∧
    decode_base64_text "invalid_base64!!!" = "" := by
  refine ⟨?_, ?_, by decide, by decide⟩
  · intro s h
    simp [decode_base64_text, h]
  · intro s bs h
    simp [decode_base64_text, h]

/-- Witness for C8 at the two spec inputs: an error input and a valid
one. -/
theorem c8_byte_decoder_witness :
    decode_base64_text "invalid_base64!!!" = "" ∧
    decode_base64_text "aGVsbG8=" = utf8DecodeIgnore [104, 101, 108, 108, 111] :=
  ⟨c8_byte_decoder.1 "invalid_base64!!!" (by decide),
   c8_byte_decoder.2.1 "aGVsbG8=" [104, 101, 108, 108, 111] (by decide)⟩

/-- Claim C9: both operations are total Lean functions over every
`PartNode` tree by construction (they are defined for all inputs,
including a depth-0 leaf with all optional fields absent, evaluated in
the last two conjuncts); `extract_attachments` returns the empty (never
null — the embedding's `List` has no null) sequence exactly when no node
of the tree is attachment-eligible. -/
theorem c9_totality :
    (∀ p : MessagePayload, (∀ q ∈ preorder p, q.create_attachment = none) →
      p.extract_attachments = []) ∧
    (∀ p : MessagePayload, p.extract_attachments = [] →
      ∀ q ∈ preorder p, q.create_attachment = none) ∧
    minimalLeaf.extract_body_text = "" ∧
    minimalLeaf.extract_attachments = [] := by
  refine ⟨?_, ?_, ?_, ?_⟩
  · intro p h
    rw [extract_attachments_preorder]
    exact List.filterMap_eq_nil_iff.mpr h
  · intro p h
    rw [extract_attachments_preorder] at h
    exact List.filterMap_eq_nil_iff.mp h
  · simp [minimalLeaf, MessagePayload.extract_body_text,
      MessagePayload.decode_body_data, MessagePayload.body]
  · simp [minimalLeaf, MessagePayload.extract_attachments,
      MessagePayload.create_attachment, MessagePayload.body, truthy]

/-- Witness for C9: the no-eligible-node tree has an empty attachment
list, via the first conjunct with its hypothesis discharged node by
node. -/
theorem c9_totality_witness : c9Tree.extract_attachments = [] := by
  apply c9_totality.1 c9Tree
  intro q hq
  simp only [c9Tree, preorder, preorderList] at hq
  rw [List.mem_cons] at hq
  rcases hq with rfl | hq
  · decide
  · simp only [List.append_nil, List.mem_append] at hq
    rcases hq with hq | hq <;>
      · simp only [preorder, leafPlainHello, attNoName] at hq
        rw [List.mem_singleton] at hq
        subst hq
        decide

/-- Claim C10: an empty-string `attachment_id` is treated as absent by
both operations: `create_attachment` returns `None` for such a node
(first conjunct), normalising every empty-string id to an absent one
changes neither operation's result anywhere in the tree (second and
third), and concretely a child with `attachment_id = ""` is not skipped:
its text `"hello"` still reaches the body while no attachment is
emitted (fourth and fifth). -/
theorem c10_empty_attachment_id :
    (∀ p : MessagePayload, p.body.attachment_id = some "" →
      p.create_attachment = none) ∧
    (∀ p : MessagePayload, (normAttId p).extract_body_text = p.extract_body_text) ∧
    (∀ p : MessagePayload, (normAttId p).extract_attachments = p.extract_attachments) ∧
    MessagePayload.extract_body_text c10Tree = "hello" ∧
    c10Tree.extract_attachments = [] := by
  refine ⟨?_, extract_body_text_norm, extract_attachments_norm, ?_, ?_⟩
  · intro p h
    rw [MessagePayload.create_attachment, h]
    rfl
  · simp [c10Tree, emptyAttPlain, MessagePayload.extract_body_text, bodyLoop,
      MessagePayload.is_text_plain, MessagePayload.is_text_html, MessagePayload.body,
      MessagePayload.mime_type, MessagePayload.decode_body_data, truthy]
    decide
  · simp [c10Tree, emptyAttPlain, MessagePayload.extract_attachments, attLoop,
      MessagePayload.create_attachment, MessagePayload.body, truthy]

/-- Witness for C10: `create_attachment` of the concrete empty-id node
is `None`. -/
theorem c10_empty_attachment_id_witness : emptyAttPlain.create_attachment = none :=
  c10_empty_attachment_id.1 emptyAttPlain rfl

end GmailMcp
